import Mathlib

/-!
Verification of the proration / billing-period engine of the
pocketsmith-tools repository.

The TypeScript source manipulates luxon `DateTime` values pinned to the
Pacific/Auckland zone.  Every DateTime the core constructs is either a
start-of-day instant (00:00:00.000) or an end-of-day instant
(23:59:59.999); we therefore embed DateTimes as plain calendar dates and
translate each comparison according to the time-of-day of its operands:

* `startOfDay a <= startOfDay b`  iff  `dayN a <= dayN b`
* `endOfDay a > startOfDay b`     iff  `dayN b <= dayN a`
* `endOfDay b  .diff (startOfDay a, days).days`
    = `(dayN b - dayN a) + 86399999/86400000`  when `dayN a <= dayN b`
    (luxon counts whole calendar days and converts the remaining
    86399999 milliseconds of the final day into a fractional day), and
    `-((dayN a - dayN b - 1) + 1/86400000)` otherwise.

Currency amounts (JS floating-point numbers) are embedded as rationals.
ISO `YYYY-MM-DD` date strings are embedded as structured dates.
-/

namespace PSTools

/-- Calendar date (the payload of a luxon DateTime at day precision). -/
structure Date where
  year : Nat
  month : Nat
  day : Nat
deriving DecidableEq, Repr

/-- Gregorian leap-year test. -/
def isLeap (y : Nat) : Bool :=
  (y % 4 == 0 && y % 100 != 0) || y % 400 == 0

/-- Cumulative day count before month `m` in a non-leap year; months
outside `1..12` fall through to a full year. -/
def monthOffsets (m : Nat) : Nat :=
  match m with
  | 1 => 0 | 2 => 31 | 3 => 59 | 4 => 90 | 5 => 120 | 6 => 151
  | 7 => 181 | 8 => 212 | 9 => 243 | 10 => 273 | 11 => 304 | 12 => 334
  | _ => 365

/-- Length of month `m` of year `y`. -/
def daysInMonth (y m : Nat) : Nat :=
  match m with
  | 1 => 31 | 2 => if isLeap y then 29 else 28 | 3 => 31 | 4 => 30
  | 5 => 31 | 6 => 30 | 7 => 31 | 8 => 31 | 9 => 30 | 10 => 31
  | 11 => 30 | 12 => 31
  | _ => 31

/-- Days of year `y` that precede month `m`. -/
def daysBeforeMonth (y m : Nat) : Nat :=
  monthOffsets m + (if 3 ≤ m ∧ isLeap y = true then 1 else 0)

/-- Number of leap years strictly before year `y` (counting from year 0). -/
def leapsBefore (y : Nat) : Nat :=
  (y + 3) / 4 + (y + 399) / 400 - (y + 99) / 100

/-- Days in all years strictly before year `y`. -/
def daysBeforeYear (y : Nat) : Nat :=
  365 * y + leapsBefore y

/-- Linear day number of a calendar date (day 0 = January 1 of year 0). -/
def dayN (d : Date) : Nat :=
  daysBeforeYear d.year + daysBeforeMonth d.year d.month + (d.day - 1)

/-- A structurally well-formed calendar date. -/
def ValidDate (d : Date) : Prop :=
  1 ≤ d.month ∧ d.month ≤ 12 ∧ 1 ≤ d.day ∧ d.day ≤ daysInMonth d.year d.month

instance (d : Date) : Decidable (ValidDate d) := by
  unfold ValidDate; infer_instance

/-- Successor date (models luxon `plus (days 1)` on a valid date). -/
def nextDate (d : Date) : Date :=
  if d.day < daysInMonth d.year d.month then ⟨d.year, d.month, d.day + 1⟩
  else if d.month < 12 then ⟨d.year, d.month + 1, 1⟩
  else ⟨d.year + 1, 1, 1⟩

/-- The `n` consecutive dates starting at `a` (models an inclusive
`while (currentDate <= endDate)` day loop whose trip count is computed
from the day numbers of its bounds). -/
def dateList (a : Date) : Nat → List Date
  | 0 => []
  | n + 1 => a :: dateList (nextDate a) n

/-- Linear month index (months since year 0) of a `(year, month)` pair. -/
def mIdx (y mo : Nat) : Nat := 12 * y + (mo - 1)

/-- The `(year, month)` pair of linear month index `k`, with a day. -/
def dateOfIdx (k d : Nat) : Date := ⟨k / 12, k % 12 + 1, d⟩

/-- luxon `plus (months i)` applied to the first day of a month. -/
def plusMonthsFirst (y mo i : Nat) : Date := dateOfIdx (mIdx y mo + i) 1

/-- luxon `minus (days 1)` applied to the first day of a month:
the last day of the preceding month. -/
def prevMonthEnd (d : Date) : Date :=
  if d.month = 1 then ⟨d.year - 1, 12, 31⟩
  else ⟨d.year, d.month - 1, daysInMonth d.year (d.month - 1)⟩

/-- The fractional final day luxon reports when diffing an end-of-day
instant against a start-of-day instant: 86399999 of 86400000 ms. -/
def lastDayFrac : ℚ := 86399999 / 86400000

/-- `endOfDay b .diff (startOfDay a, days) .days` as a rational, for
calendar dates `a`, `b` (both orders). -/
def diffQ (a b : Date) : ℚ :=
  if dayN a ≤ dayN b then ((dayN b - dayN a : Nat) : ℚ) + lastDayFrac
  else -(((dayN a - dayN b - 1 : Nat) : ℚ) + 1 / 86400000)

/-! ### Basic calendar lemmas -/

theorem leapsBefore_succ (y : Nat) :
    leapsBefore (y + 1) = leapsBefore y + (if isLeap y = true then 1 else 0) := by
  unfold leapsBefore isLeap
  split
  · rename_i h
    simp only [Bool.or_eq_true, Bool.and_eq_true, beq_iff_eq, bne_iff_ne, ne_eq] at h
    omega
  · rename_i h
    simp only [Bool.or_eq_true, Bool.and_eq_true, beq_iff_eq, bne_iff_ne, ne_eq] at h
    push_neg at h
    omega

theorem daysBeforeYear_succ (y : Nat) :
    daysBeforeYear (y + 1) = daysBeforeYear y + 365 + (if isLeap y = true then 1 else 0) := by
  unfold daysBeforeYear
  rw [leapsBefore_succ]
  omega

theorem daysBeforeMonth_succ (y m : Nat) (h1 : 1 ≤ m) (h2 : m ≤ 12) :
    daysBeforeMonth y (m + 1) = daysBeforeMonth y m + daysInMonth y m := by
  interval_cases m <;>
    simp only [daysBeforeMonth, monthOffsets, daysInMonth] <;>
    rcases h : isLeap y <;> simp [h]

theorem daysInMonth_ge (y m : Nat) : 28 ≤ daysInMonth y m := by
  unfold daysInMonth
  split <;> first | omega | (split <;> omega)

theorem daysInMonth_le (y m : Nat) : daysInMonth y m ≤ 31 := by
  unfold daysInMonth
  split <;> first | omega | (split <;> omega)

/-- The month written by the billing-period generator after incrementing
(and December-rollover-normalizing) a month counter. -/
def nextYM (y mo : Nat) : Nat × Nat :=
  if 12 < mo + 1 then (y + 1, 1) else (y, mo + 1)

/-- The `periodEnd` date (2nd of the following month) of the billing
cycle anchored at month `(y, mo)`. -/
def peOf (y mo : Nat) : Date := ⟨(nextYM y mo).1, (nextYM y mo).2, 2⟩

theorem nextYM_month_bounds (y mo : Nat) :
    1 ≤ (nextYM y mo).2 ∧ (nextYM y mo).2 ≤ 12 := by
  unfold nextYM
  split
  · exact ⟨by omega, by omega⟩
  · rename_i h
    refine ⟨by omega, ?_⟩
    show mo + 1 ≤ 12
    omega

theorem dayN_nextYM (y mo d : Nat) (h1 : 1 ≤ mo) (h2 : mo ≤ 12) :
    dayN ⟨(nextYM y mo).1, (nextYM y mo).2, d⟩ =
      dayN ⟨y, mo, d⟩ + daysInMonth y mo := by
  unfold nextYM
  split
  · -- mo = 12 rollover
    have hmo : mo = 12 := by omega
    subst hmo
    simp only [dayN, daysBeforeYear_succ]
    have : daysBeforeMonth y 13 = daysBeforeMonth y 12 + daysInMonth y 12 :=
      daysBeforeMonth_succ y 12 (by omega) (by omega)
    simp only [daysBeforeMonth, monthOffsets, daysInMonth] at *
    rcases h : isLeap y <;> simp [h] at * <;> omega
  · simp only [dayN]
    rw [daysBeforeMonth_succ y mo h1 h2]
    omega

theorem dayN_peOf_lt (y mo : Nat) :
    dayN (peOf y mo) < dayN (peOf (nextYM y mo).1 (nextYM y mo).2) := by
  obtain ⟨hb1, hb2⟩ := nextYM_month_bounds y mo
  have step := dayN_nextYM (nextYM y mo).1 (nextYM y mo).2 2 hb1 hb2
  have hge := daysInMonth_ge (nextYM y mo).1 (nextYM y mo).2
  unfold peOf
  omega

/-- JS `Math.abs` on the rational embedding of a JS number. -/
def absQ (q : ℚ) : ℚ := if q < 0 then -q else q

theorem absQ_eq_abs (q : ℚ) : absQ q = |q| := by
  unfold absQ
  rcases lt_or_le q 0 with h | h
  · rw [if_pos h, abs_of_neg h]
  · rw [if_neg (not_lt.mpr h), abs_of_nonneg h]

/-! ### The data model (src/src/types.ts) -/

/-- The fields of `Category` the core reads. -/
structure Category where
  title : String
  is_bill : Bool
deriving DecidableEq, Repr

/-- The fields of `PocketSmithEvent` the core reads; the ISO `date`
string is embedded as a structured date, `amount` as a rational. -/
structure PSEvent where
  amount : ℚ
  date : Date
  category : Category
  is_transfer : Bool
  repeat_type : String
  repeat_interval : Nat
deriving DecidableEq, Repr

/-- The sentinel category title hard-coded in
`src/src/dailySpendingMap.ts` line 41: `"Credit Card Repayments "`
followed by the four code points U+00F0 U+0178 U+2019 U+00B3
(a mojibake rendering of the card emoji). -/
def sentinelDaily : String :=
  "Credit Card Repayments " ++
    String.mk [Char.ofNat 240, Char.ofNat 376, Char.ofNat 8217, Char.ofNat 179]

/-- The sentinel category title hard-coded in `src/src/types.ts`
line 322 (`calculateCategoryBreakdown`): `"Credit Card Repayments "`
followed by the single code point U+1F4B3 (the card emoji). -/
def sentinelBreakdown : String :=
  "Credit Card Repayments " ++ String.mk [Char.ofNat 128179]

/-- The sentinel-category test `buildDailySpendingMap` applies
(src/src/dailySpendingMap.ts line 41). -/
def dailySentinelSkip (event : PSEvent) : Bool :=
  event.category.title == sentinelDaily

/-- The sentinel-category test `calculateCategoryBreakdown` applies
(src/src/types.ts line 322). -/
def breakdownSentinelSkip (event : PSEvent) : Bool :=
  event.category.title == sentinelBreakdown

/-! ### The daily spending map as a JS object (string-keyed record) -/

/-- `DailySpendingMap`: a JS object in insertion order; keys are the
ISO date strings (embedded as dates), values the accumulated amounts. -/
abbrev SpendMap := List (Date × ℚ)

/-- JS `m[k] = v`: update in place if the key exists, else append. -/
def setKey : SpendMap → Date → ℚ → SpendMap
  | [], k, v => [(k, v)]
  | (k', v') :: rest, k, v =>
    if k' = k then (k', v) :: rest else (k', v') :: setKey rest k v

/-- JS `m[k] || 0`. -/
def getKey : SpendMap → Date → ℚ
  | [], _ => 0
  | (k', v') :: rest, k => if k' = k then v' else getKey rest k

/-- JS `Object.keys m` (insertion order). -/
def keysOf (m : SpendMap) : List Date := m.map Prod.fst

/-! ### Fiscal calendar (src/unnamed/part_000, getCurrentNZFinancialYear) -/

/-- The calendar year in which the current NZ financial year started:
previous year for January--March, else the current year. -/
def fyStartYear (now : Date) : Nat :=
  if now.month < 4 then now.year - 1 else now.year

/-- April 1 of the fiscal start year (start of day). -/
def fyStartDate (fy : Nat) : Date := ⟨fy, 4, 1⟩

/-- March 31 of the following year (end of day). -/
def fyEndDate (fy : Nat) : Date := ⟨fy + 1, 3, 31⟩

/-- Every day of the current financial year, in order (the
initialization loop of `buildDailySpendingMap`). -/
def fiscalDates (now : Date) : List Date :=
  dateList (fyStartDate (fyStartYear now))
    (dayN (fyEndDate (fyStartYear now)) + 1 - dayN (fyStartDate (fyStartYear now)))

/-! ### The proration engine, map-builder copy
(src/src/dailySpendingMap.ts, calculateProratedSpending) -/

/-- `{ startDate, endDate, dailyAmount }`; `startDate` carries 00:00,
`endDate` carries 23:59:59.999. -/
structure ProrationResult where
  startDate : Date
  endDate : Date
  dailyAmount : ℚ
deriving DecidableEq, Repr

/-- `calculateProratedSpending` of src/src/dailySpendingMap.ts:
switch on `repeat_type` with cases `monthly`, `yearly` and a default
that repeats the monthly computation (after a console warning). -/
def calculateProratedSpending (event : PSEvent) (eventDate : Date)
    (fyStart fyEnd : Date) : ProrationResult :=
  let amount := absQ event.amount
  let repeatType := event.repeat_type
  let repeatInterval := event.repeat_interval
  if repeatType = "monthly" then
    let startDate0 : Date := ⟨eventDate.year, eventDate.month, 1⟩
    let endDate0 : Date :=
      prevMonthEnd (plusMonthsFirst eventDate.year eventDate.month repeatInterval)
    let startDate := if dayN startDate0 < dayN fyStart then fyStart else startDate0
    let endDate := if dayN fyEnd < dayN endDate0 then fyEnd else endDate0
    let totalDays : ℚ := diffQ startDate endDate + 1
    ⟨startDate, endDate, amount / totalDays⟩
  else if repeatType = "yearly" then
    let totalDays : ℚ := diffQ fyStart fyEnd + 1
    ⟨fyStart, fyEnd, amount / totalDays⟩
  else
    let startDate0 : Date := ⟨eventDate.year, eventDate.month, 1⟩
    let endDate0 : Date :=
      prevMonthEnd (plusMonthsFirst eventDate.year eventDate.month repeatInterval)
    let startDate := if dayN startDate0 < dayN fyStart then fyStart else startDate0
    let endDate := if dayN fyEnd < dayN endDate0 then fyEnd else endDate0
    let totalDays : ℚ := diffQ startDate endDate + 1
    ⟨startDate, endDate, amount / totalDays⟩

/-- The body of the event loop of `buildDailySpendingMap`: skip
transfers, the sentinel category and events outside the financial
year; put bills on their date; spread prorated events over their
span.  The range check compares `eventDate` (00:00) against
`fyStart.startOf(day)` and `fyEnd.startOf(day)`. -/
def applyEventToMap (now : Date) (m : SpendMap) (event : PSEvent) : SpendMap :=
  let fyS := fyStartDate (fyStartYear now)
  let fyE := fyEndDate (fyStartYear now)
  if event.is_transfer then m
  else if dailySentinelSkip event then m
  else
    let eventDate := event.date
    if dayN eventDate < dayN fyS ∨ dayN fyE < dayN eventDate then m
    else
      let amount := absQ event.amount
      if event.category.is_bill then
        setKey m eventDate (getKey m eventDate + amount)
      else
        let r := calculateProratedSpending event eventDate fyS fyE
        (dateList r.startDate (dayN r.endDate + 1 - dayN r.startDate)).foldl
          (fun m2 d => setKey m2 d (getKey m2 d + r.dailyAmount)) m

/-- `buildDailySpendingMap` of src/src/dailySpendingMap.ts.  The
ambient `DateTime.now()` read by `getCurrentNZFinancialYear` is passed
explicitly as `now`. -/
def buildDailySpendingMap (now : Date) (events : List PSEvent) : SpendMap :=
  let init : SpendMap := (fiscalDates now).foldl (fun m d => setKey m d 0) []
  events.foldl (applyEventToMap now) init

/-- `getSpendingForDate` of src/src/dailySpendingMap.ts. -/
def getSpendingForDate (m : SpendMap) (d : Date) : ℚ := getKey m d

/-- `getSpendingForDateRange` of src/src/dailySpendingMap.ts: inclusive
day loop from `startDate` to `endDate`. -/
def getSpendingForDateRange (m : SpendMap) (startDate endDate : Date) : ℚ :=
  (dateList startDate (dayN endDate + 1 - dayN startDate)).foldl
    (fun total d => total + getSpendingForDate m d) 0

/-! ### The proration engine, billing-aggregator copy
(src/src/types.ts, calculateEventProratedPeriod) -/

/-- `calculateEventProratedPeriod` of src/src/types.ts: same switch as
`calculateProratedSpending`, but the fiscal-year bounds are derived
internally from `DateTime.now()` (passed here as `now`). -/
def calculateEventProratedPeriod (now : Date) (event : PSEvent)
    (eventDate : Date) : ProrationResult :=
  let amount := absQ event.amount
  let repeatType := event.repeat_type
  let repeatInterval := event.repeat_interval
  let fyStartYr := if now.month < 4 then now.year - 1 else now.year
  let fyStart : Date := ⟨fyStartYr, 4, 1⟩
  let fyEnd : Date := ⟨fyStartYr + 1, 3, 31⟩
  if repeatType = "monthly" then
    let startDate0 : Date := ⟨eventDate.year, eventDate.month, 1⟩
    let endDate0 : Date :=
      prevMonthEnd (plusMonthsFirst eventDate.year eventDate.month repeatInterval)
    let startDate := if dayN startDate0 < dayN fyStart then fyStart else startDate0
    let endDate := if dayN fyEnd < dayN endDate0 then fyEnd else endDate0
    let totalDays : ℚ := diffQ startDate endDate + 1
    ⟨startDate, endDate, amount / totalDays⟩
  else if repeatType = "yearly" then
    let totalDays : ℚ := diffQ fyStart fyEnd + 1
    ⟨fyStart, fyEnd, amount / totalDays⟩
  else
    let startDate0 : Date := ⟨eventDate.year, eventDate.month, 1⟩
    let endDate0 : Date :=
      prevMonthEnd (plusMonthsFirst eventDate.year eventDate.month repeatInterval)
    let startDate := if dayN startDate0 < dayN fyStart then fyStart else startDate0
    let endDate := if dayN fyEnd < dayN endDate0 then fyEnd else endDate0
    let totalDays : ℚ := diffQ startDate endDate + 1
    ⟨startDate, endDate, amount / totalDays⟩

/-! ### Category breakdown (src/src/types.ts) -/

/-- One bill-type event's contribution within a period. -/
structure BillBreakdown where
  event : PSEvent
  amount : ℚ
  date : Date
deriving DecidableEq, Repr

/-- Per-category rollup within a billing period. -/
structure CategoryBreakdown where
  categoryTitle : String
  totalAmount : ℚ
  bills : List BillBreakdown
  proratedAmount : ℚ
deriving DecidableEq, Repr

/-- `doesProratedEventOverlapPeriod` of src/src/types.ts:
`startDate <= periodEnd && endDate >= periodStart` (start-of-day
versus end-of-day instants, hence plain day-number comparisons). -/
def doesProratedEventOverlapPeriod (now : Date) (event : PSEvent)
    (eventDate periodStart periodEnd : Date) : Bool :=
  let r := calculateEventProratedPeriod now event eventDate
  decide (dayN r.startDate ≤ dayN periodEnd) &&
    decide (dayN periodStart ≤ dayN r.endDate)

/-- `calculateProratedAmountForPeriod` of src/src/types.ts: clamp the
proration span to the billing period and charge
`dailyAmount * (overlap days inclusive)`. -/
def calculateProratedAmountForPeriod (now : Date) (event : PSEvent)
    (periodStart periodEnd : Date) : ℚ :=
  let eventDate := event.date
  let r := calculateEventProratedPeriod now event eventDate
  let overlapStart := if dayN periodStart < dayN r.startDate then r.startDate else periodStart
  let overlapEnd := if dayN r.endDate < dayN periodEnd then r.endDate else periodEnd
  if dayN overlapEnd < dayN overlapStart then 0
  else r.dailyAmount * (diffQ overlapStart overlapEnd + 1)

/-- Key lookup in the JS `Map<string, CategoryBreakdown>`. -/
def hasCatKey (cm : List (String × CategoryBreakdown)) (t : String) : Bool :=
  cm.any (fun kv => kv.1 == t)

/-- In-place mutation of one entry of the JS `Map` (insertion order is
preserved). -/
def mapValueAt (cm : List (String × CategoryBreakdown)) (t : String)
    (f : CategoryBreakdown → CategoryBreakdown) :
    List (String × CategoryBreakdown) :=
  cm.map (fun kv => if kv.1 = t then (kv.1, f kv.2) else kv)

/-- One step of the grouping loop of `calculateCategoryBreakdown`. -/
def addEventToCategoryMap (now : Date) (periodStart periodEnd : Date)
    (cm : List (String × CategoryBreakdown)) (event : PSEvent) :
    List (String × CategoryBreakdown) :=
  let categoryTitle := event.category.title
  let amount := absQ event.amount
  let cm1 :=
    if hasCatKey cm categoryTitle then cm
    else cm ++ [(categoryTitle, ⟨categoryTitle, 0, [], 0⟩)]
  if event.category.is_bill then
    mapValueAt cm1 categoryTitle (fun c =>
      ⟨c.categoryTitle, c.totalAmount + amount,
        c.bills ++ [⟨event, amount, event.date⟩], c.proratedAmount⟩)
  else
    let proratedAmount := calculateProratedAmountForPeriod now event periodStart periodEnd
    mapValueAt cm1 categoryTitle (fun c =>
      ⟨c.categoryTitle, c.totalAmount + proratedAmount,
        c.bills, c.proratedAmount + proratedAmount⟩)

/-- Stable descending insertion by `totalAmount` (the JS stable
`sort((a, b) => b.totalAmount - a.totalAmount)`). -/
def insertByAmountDesc (c : CategoryBreakdown) :
    List CategoryBreakdown → List CategoryBreakdown
  | [] => [c]
  | x :: xs =>
    if c.totalAmount ≤ x.totalAmount then x :: insertByAmountDesc c xs
    else c :: x :: xs

/-- Stable descending sort by `totalAmount`. -/
def sortByAmountDesc (l : List CategoryBreakdown) : List CategoryBreakdown :=
  l.foldl (fun acc c => insertByAmountDesc c acc) []

/-- `calculateCategoryBreakdown` of src/src/types.ts.  The ambient
`DateTime.now()` used by the nested proration calls is `now`;
`periodStart` is a start-of-day instant and `periodEnd` an end-of-day
instant. -/
def calculateCategoryBreakdown (now : Date) (allEvents : List PSEvent)
    (periodStart periodEnd : Date) : List CategoryBreakdown :=
  let relevantEvents := allEvents.filter (fun event =>
    if event.is_transfer || breakdownSentinelSkip event then false
    else if event.category.is_bill then
      decide (dayN periodStart ≤ dayN event.date) &&
        decide (dayN event.date ≤ dayN periodEnd)
    else
      doesProratedEventOverlapPeriod now event event.date periodStart periodEnd)
  let categoryMap := relevantEvents.foldl
    (addEventToCategoryMap now periodStart periodEnd) []
  sortByAmountDesc
    ((categoryMap.map Prod.snd).filter (fun c => decide (0 < c.totalAmount)))

/-! ### Billing-period generator (src/src/types.ts,
calculateCreditCardRepayments) -/

/-- A credit-card billing cycle with its repayment metadata. -/
structure CreditCardBillingPeriod where
  repaymentMonth : String
  periodStart : Date
  periodEnd : Date
  totalSpending : ℚ
  categoryBreakdown : List CategoryBreakdown
deriving DecidableEq, Repr

/-- `"YYYY-MM"`: the JS template
`(repaymentYear)-(repaymentMonth.toString().padStart(2, '0'))`. -/
def fmtYM (y m : Nat) : String :=
  Nat.repr y ++ "-" ++ (if m < 10 then "0" ++ Nat.repr m else Nat.repr m)

/-- Ascending stable insertion by day number (the JS stable
`sort((a, b) => a.toMillis() - b.toMillis())`). -/
def insertAsc (d : Date) : List Date → List Date
  | [] => [d]
  | x :: xs => if dayN x ≤ dayN d then x :: insertAsc d xs else d :: x :: xs

/-- Ascending stable sort of the available dates. -/
def sortAsc (l : List Date) : List Date :=
  l.foldl (fun acc d => insertAsc d acc) []

/-- The `while (true)` cycle loop of `calculateCreditCardRepayments`:
for the cycle anchored at month `(y, mo)`, `periodStart` is the 3rd of
that month (start of day), `periodEnd` the 2nd of the next month (end
of day).  The loop breaks when `periodEnd > latestDate` (an end-of-day
versus start-of-day comparison, i.e. `dayN latest <= dayN periodEnd`);
otherwise the period is pushed when the repayment month, the month of
`periodEnd`, is not before the current month. -/
def billingLoop (now : Date) (m : SpendMap) (allEvents : List PSEvent)
    (latestDate : Date) (y mo : Nat) : List CreditCardBillingPeriod :=
  let nx := nextYM y mo
  let periodStart : Date := ⟨y, mo, 3⟩
  let periodEnd : Date := peOf y mo
  if dayN latestDate ≤ dayN periodEnd then []
  else
    let rest := billingLoop now m allEvents latestDate nx.1 nx.2
    if dayN (⟨now.year, now.month, 1⟩ : Date) ≤ dayN (⟨nx.1, nx.2, 1⟩ : Date) then
      { repaymentMonth := fmtYM nx.1 nx.2
        periodStart := periodStart
        periodEnd := periodEnd
        totalSpending := getSpendingForDateRange m periodStart periodEnd
        categoryBreakdown := calculateCategoryBreakdown now allEvents periodStart periodEnd
      } :: rest
    else rest
termination_by dayN latestDate - dayN (peOf y mo)
decreasing_by
  have h1 := dayN_peOf_lt y mo
  have h2 : dayN periodEnd = dayN (peOf y mo) := rfl
  omega

/-- The first billing-cycle anchor month: the earliest date's month,
advanced by one (with December rollover) when the earliest date's day
is past the 3rd. -/
def startYM (earliest : Date) : Nat × Nat :=
  if 3 < earliest.day then
    if earliest.month = 12 then (earliest.year + 1, 1)
    else (earliest.year, earliest.month + 1)
  else (earliest.year, earliest.month)

theorem startYM_month_bounds (earliest : Date) (h1 : 1 ≤ earliest.month)
    (h2 : earliest.month ≤ 12) :
    1 ≤ (startYM earliest).2 ∧ (startYM earliest).2 ≤ 12 := by
  unfold startYM
  split
  · split
    · exact ⟨by omega, by omega⟩
    · rename_i h12
      refine ⟨?_, ?_⟩
      · show 1 ≤ earliest.month + 1
        omega
      · show earliest.month + 1 ≤ 12
        omega
  · exact ⟨h1, h2⟩

/-- `calculateCreditCardRepayments` of src/src/types.ts.  The ambient
`DateTime.now()` is passed explicitly as `now`. -/
def calculateCreditCardRepayments (now : Date) (dailySpending : SpendMap)
    (allEvents : List PSEvent) : List CreditCardBillingPeriod :=
  let availableDates := sortAsc (keysOf dailySpending)
  match availableDates with
  | [] => []
  | earliest :: restDates =>
    let latestDate := (earliest :: restDates).getLast (List.cons_ne_nil earliest restDates)
    billingLoop now dailySpending allEvents latestDate
      (startYM earliest).1 (startYM earliest).2

/-! ### Repayment adjuster -/

/-- Modelled from the spec: `applyHeadroomToRepayments` lives in
`src/creditCardRepayments.ts`, which is absent from the provided
sources (only its import in src/src/index.ts is present).  Spec 4.6:
multiplies each period's `totalSpending` by `(1 + percentage / 100)`. -/
def applyHeadroomToRepayments (periods : List CreditCardBillingPeriod)
    (percentage : ℚ) : List CreditCardBillingPeriod :=
  periods.map (fun p =>
    ⟨p.repaymentMonth, p.periodStart, p.periodEnd,
      p.totalSpending * (1 + percentage / 100), p.categoryBreakdown⟩)

/-- An event with its `repeat_type` replaced. -/
def withRepeatType (e : PSEvent) (rt : String) : PSEvent :=
  ⟨e.amount, e.date, e.category, e.is_transfer, rt, e.repeat_interval⟩

/-! ### Lemmas about the available-dates sort -/

theorem mem_insertAsc {a d : Date} {l : List Date} :
    a ∈ insertAsc d l ↔ a = d ∨ a ∈ l := by
  induction l with
  | nil => simp [insertAsc]
  | cons x xs ih =>
    unfold insertAsc
    split
    · rw [List.mem_cons, ih, List.mem_cons]
      tauto
    · simp

theorem mem_foldl_insertAsc {a : Date} (l : List Date) :
    ∀ acc, a ∈ l.foldl (fun acc d => insertAsc d acc) acc ↔ a ∈ acc ∨ a ∈ l := by
  induction l with
  | nil => intro acc; simp
  | cons x xs ih =>
    intro acc
    rw [List.foldl_cons, ih (insertAsc x acc), mem_insertAsc, List.mem_cons]
    tauto

theorem mem_sortAsc {a : Date} {l : List Date} : a ∈ sortAsc l ↔ a ∈ l := by
  unfold sortAsc
  rw [mem_foldl_insertAsc]
  simp

/-- Sorted ascending by day number. -/
def SortedA (l : List Date) : Prop := List.Pairwise (fun x y => dayN x ≤ dayN y) l

theorem sortedA_insertAsc {d : Date} {l : List Date} (h : SortedA l) :
    SortedA (insertAsc d l) := by
  induction l with
  | nil => simp [insertAsc, SortedA]
  | cons x xs ih =>
    unfold SortedA at h
    rw [List.pairwise_cons] at h
    obtain ⟨hx, hxs⟩ := h
    unfold insertAsc
    split
    · rename_i hle
      unfold SortedA
      rw [List.pairwise_cons]
      refine ⟨?_, ih hxs⟩
      intro b hb
      rcases mem_insertAsc.mp hb with rfl | hb2
      · exact hle
      · exact hx b hb2
    · rename_i hgt
      unfold SortedA
      rw [List.pairwise_cons]
      refine ⟨?_, ?_⟩
      · intro b hb
        rcases List.mem_cons.mp hb with rfl | hb2
        · omega
        · have := hx b hb2
          omega
      · rw [List.pairwise_cons]
        exact ⟨hx, hxs⟩

theorem sortedA_sortAsc (l : List Date) : SortedA (sortAsc l) := by
  unfold sortAsc
  suffices h : ∀ acc, SortedA acc → SortedA (l.foldl (fun acc d => insertAsc d acc) acc) from
    h [] (by simp [SortedA])
  induction l with
  | nil => intro acc h; exact h
  | cons x xs ih =>
    intro acc h
    exact ih _ (sortedA_insertAsc h)

theorem sortedA_le_getLast {l : List Date} (h : SortedA l) {a L : Date}
    (ha : a ∈ l) (hL : l.getLast? = some L) : dayN a ≤ dayN L := by
  induction l with
  | nil => cases ha
  | cons x xs ih =>
    unfold SortedA at h
    rw [List.pairwise_cons] at h
    obtain ⟨hx, hxs⟩ := h
    cases xs with
    | nil =>
      simp only [List.getLast?_singleton, Option.some.injEq] at hL
      simp only [List.mem_singleton] at ha
      subst hL; subst ha
      exact le_refl _
    | cons y ys =>
      rw [List.getLast?_cons_cons] at hL
      rcases List.mem_cons.mp ha with rfl | ha2
      · have hLmem : L ∈ y :: ys := by
          have := List.mem_of_mem_getLast? hL
          exact this
        exact hx L hLmem
      · exact ih hxs ha2 hL

/-! ### Lemmas about the billing-cycle month iteration -/

/-- `j`-fold application of the month increment of the billing loop. -/
def iterYM (y mo : Nat) : Nat → Nat × Nat
  | 0 => (y, mo)
  | j + 1 => nextYM (iterYM y mo j).1 (iterYM y mo j).2

theorem iterYM_shift (y mo j : Nat) :
    iterYM (nextYM y mo).1 (nextYM y mo).2 j = iterYM y mo (j + 1) := by
  induction j with
  | zero => rfl
  | succ j ih =>
    show nextYM (iterYM (nextYM y mo).1 (nextYM y mo).2 j).1
        (iterYM (nextYM y mo).1 (nextYM y mo).2 j).2 = _
    rw [ih]
    rfl

theorem iterYM_month_bounds (y mo : Nat) (h1 : 1 ≤ mo) (h2 : mo ≤ 12) (j : Nat) :
    1 ≤ (iterYM y mo j).2 ∧ (iterYM y mo j).2 ≤ 12 := by
  cases j with
  | zero => exact ⟨h1, h2⟩
  | succ j => exact nextYM_month_bounds _ _

theorem dayN_iterYM_ge (y mo : Nat) (h1 : 1 ≤ mo) (h2 : mo ≤ 12) (j d : Nat) :
    dayN ⟨y, mo, d⟩ + 28 * j ≤ dayN ⟨(iterYM y mo j).1, (iterYM y mo j).2, d⟩ := by
  induction j with
  | zero => simp [iterYM]
  | succ j ih =>
    have hb := iterYM_month_bounds y mo h1 h2 j
    have hstep := dayN_nextYM (iterYM y mo j).1 (iterYM y mo j).2 d hb.1 hb.2
    have hge := daysInMonth_ge (iterYM y mo j).1 (iterYM y mo j).2
    have hunf : iterYM y mo (j + 1) =
        nextYM (iterYM y mo j).1 (iterYM y mo j).2 := rfl
    rw [hunf]
    omega

theorem dayN_day_lt {y mo d1 d2 : Nat} (h1 : 1 ≤ d1) (hlt : d1 < d2) :
    dayN ⟨y, mo, d1⟩ < dayN ⟨y, mo, d2⟩ := by
  simp only [dayN]
  omega

/-! ### Shape of the billing loop output -/

theorem billingLoop_mem (now : Date) (m : SpendMap) (evs : List PSEvent) (L : Date) :
    ∀ (n y mo : Nat), dayN L - dayN (peOf y mo) ≤ n → 1 ≤ mo → mo ≤ 12 →
    ∀ p ∈ billingLoop now m evs L y mo,
      ∃ j,
        p.periodStart = ⟨(iterYM y mo j).1, (iterYM y mo j).2, 3⟩ ∧
        p.periodEnd = peOf (iterYM y mo j).1 (iterYM y mo j).2 ∧
        p.repaymentMonth =
          fmtYM (nextYM (iterYM y mo j).1 (iterYM y mo j).2).1
            (nextYM (iterYM y mo j).1 (iterYM y mo j).2).2 ∧
        dayN p.periodEnd < dayN L := by
  intro n
  induction n with
  | zero =>
    intro y mo hn h1 h2 p hp
    rw [billingLoop] at hp
    rw [if_pos (by omega : dayN L ≤ dayN (peOf y mo))] at hp
    cases hp
  | succ n ih =>
    intro y mo hn h1 h2 p hp
    rw [billingLoop] at hp
    by_cases hg : dayN L ≤ dayN (peOf y mo)
    · rw [if_pos hg] at hp
      cases hp
    · rw [if_neg hg] at hp
      obtain ⟨hb1, hb2⟩ := nextYM_month_bounds y mo
      have hmeas : dayN L - dayN (peOf (nextYM y mo).1 (nextYM y mo).2) ≤ n := by
        have := dayN_peOf_lt y mo
        omega
      have hrec := ih (nextYM y mo).1 (nextYM y mo).2 hmeas hb1 hb2
      have hhead : ∀ q, q = (⟨fmtYM (nextYM y mo).1 (nextYM y mo).2, ⟨y, mo, 3⟩, peOf y mo,
            getSpendingForDateRange m ⟨y, mo, 3⟩ (peOf y mo),
            calculateCategoryBreakdown now evs ⟨y, mo, 3⟩ (peOf y mo)⟩ : CreditCardBillingPeriod) →
          ∃ j, q.periodStart = ⟨(iterYM y mo j).1, (iterYM y mo j).2, 3⟩ ∧
            q.periodEnd = peOf (iterYM y mo j).1 (iterYM y mo j).2 ∧
            q.repaymentMonth = fmtYM (nextYM (iterYM y mo j).1 (iterYM y mo j).2).1
              (nextYM (iterYM y mo j).1 (iterYM y mo j).2).2 ∧
            dayN q.periodEnd < dayN L := by
        intro q hq
        subst hq
        refine ⟨0, rfl, rfl, rfl, ?_⟩
        show dayN (peOf y mo) < dayN L
        omega
      have htail : ∀ q ∈ billingLoop now m evs L (nextYM y mo).1 (nextYM y mo).2,
          ∃ j, q.periodStart = ⟨(iterYM y mo j).1, (iterYM y mo j).2, 3⟩ ∧
            q.periodEnd = peOf (iterYM y mo j).1 (iterYM y mo j).2 ∧
            q.repaymentMonth = fmtYM (nextYM (iterYM y mo j).1 (iterYM y mo j).2).1
              (nextYM (iterYM y mo j).1 (iterYM y mo j).2).2 ∧
            dayN q.periodEnd < dayN L := by
        intro q hq
        obtain ⟨j, hj1, hj2, hj3, hj4⟩ := hrec q hq
        rw [iterYM_shift] at hj1 hj2 hj3
        exact ⟨j + 1, hj1, hj2, hj3, hj4⟩
      split at hp
      · rcases List.mem_cons.mp hp with rfl | hq
        · exact hhead _ rfl
        · exact htail _ hq
      · exact htail _ hp

theorem billingLoop_pairwise (now : Date) (m : SpendMap) (evs : List PSEvent) (L : Date) :
    ∀ (n y mo : Nat), dayN L - dayN (peOf y mo) ≤ n → 1 ≤ mo → mo ≤ 12 →
    List.Pairwise (fun p q => dayN p.periodEnd < dayN q.periodStart)
      (billingLoop now m evs L y mo) := by
  intro n
  induction n with
  | zero =>
    intro y mo hn h1 h2
    rw [billingLoop]
    rw [if_pos (by omega : dayN L ≤ dayN (peOf y mo))]
    exact List.Pairwise.nil
  | succ n ih =>
    intro y mo hn h1 h2
    rw [billingLoop]
    by_cases hg : dayN L ≤ dayN (peOf y mo)
    · rw [if_pos hg]
      exact List.Pairwise.nil
    · rw [if_neg hg]
      obtain ⟨hb1, hb2⟩ := nextYM_month_bounds y mo
      have hmeas : dayN L - dayN (peOf (nextYM y mo).1 (nextYM y mo).2) ≤ n := by
        have := dayN_peOf_lt y mo
        omega
      have htail := ih (nextYM y mo).1 (nextYM y mo).2 hmeas hb1 hb2
      have hsep : ∀ q ∈ billingLoop now m evs L (nextYM y mo).1 (nextYM y mo).2,
          dayN (peOf y mo) < dayN q.periodStart := by
        intro q hq
        obtain ⟨j, hj1, _, _, _⟩ :=
          billingLoop_mem now m evs L n (nextYM y mo).1 (nextYM y mo).2 hmeas hb1 hb2 q hq
        rw [hj1]
        have hiter := dayN_iterYM_ge (nextYM y mo).1 (nextYM y mo).2 hb1 hb2 j 3
        have h23 : dayN ⟨(nextYM y mo).1, (nextYM y mo).2, 2⟩ <
            dayN ⟨(nextYM y mo).1, (nextYM y mo).2, 3⟩ := dayN_day_lt (by omega) (by omega)
        unfold peOf
        omega
      split
      · exact List.Pairwise.cons hsep htail
      · exact htail

/-! ### Shape of the generator output -/

theorem calcCCR_shape (now : Date) (m : SpendMap) (evs : List PSEvent)
    (hk : ∀ k ∈ keysOf m, ValidDate k) :
    ∀ p ∈ calculateCreditCardRepayments now m evs,
      (∃ y mo, 1 ≤ mo ∧ mo ≤ 12 ∧ p.periodStart = ⟨y, mo, 3⟩ ∧ p.periodEnd = peOf y mo ∧
        p.repaymentMonth = fmtYM (nextYM y mo).1 (nextYM y mo).2)
      ∧ (∀ L, (sortAsc (keysOf m)).getLast? = some L → dayN p.periodEnd < dayN L) := by
  intro p hp
  unfold calculateCreditCardRepayments at hp
  cases hs : sortAsc (keysOf m) with
  | nil =>
    simp only [hs] at hp
    exact absurd hp (List.not_mem_nil p)
  | cons earliest restDates =>
    simp only [hs] at hp
    have hem : earliest ∈ keysOf m := by
      have : earliest ∈ sortAsc (keysOf m) := by rw [hs]; exact List.mem_cons_self _ _
      exact mem_sortAsc.mp this
    obtain ⟨hm1, hm2, _, _⟩ := hk earliest hem
    have hs0b := startYM_month_bounds earliest hm1 hm2
    have hmem := billingLoop_mem now m evs
      ((earliest :: restDates).getLast (List.cons_ne_nil earliest restDates))
      (dayN ((earliest :: restDates).getLast (List.cons_ne_nil earliest restDates)) -
        dayN (peOf (startYM earliest).1 (startYM earliest).2))
      (startYM earliest).1 (startYM earliest).2
      (le_refl _) hs0b.1 hs0b.2 p hp
    obtain ⟨j, hj1, hj2, hj3, hj4⟩ := hmem
    have hjb := iterYM_month_bounds (startYM earliest).1 (startYM earliest).2 hs0b.1 hs0b.2 j
    constructor
    · exact ⟨_, _, hjb.1, hjb.2, hj1, hj2, hj3⟩
    · intro L hL
      have hgl : (earliest :: restDates).getLast? =
          some ((earliest :: restDates).getLast (List.cons_ne_nil earliest restDates)) :=
        List.getLast?_eq_getLast _ _
      rw [hgl] at hL
      cases hL
      exact hj4

/-- Pairwise separation of the generator output. -/
theorem calcCCR_pairwise (now : Date) (m : SpendMap) (evs : List PSEvent)
    (hk : ∀ k ∈ keysOf m, ValidDate k) :
    List.Pairwise (fun p q => dayN p.periodEnd < dayN q.periodStart)
      (calculateCreditCardRepayments now m evs) := by
  unfold calculateCreditCardRepayments
  cases hs : sortAsc (keysOf m) with
  | nil => simp only [hs]; exact List.Pairwise.nil
  | cons earliest restDates =>
    simp only [hs]
    have hem : earliest ∈ keysOf m := by
      have : earliest ∈ sortAsc (keysOf m) := by rw [hs]; exact List.mem_cons_self _ _
      exact mem_sortAsc.mp this
    obtain ⟨hm1, hm2, _, _⟩ := hk earliest hem
    have hs0b := startYM_month_bounds earliest hm1 hm2
    exact billingLoop_pairwise now m evs _ _ (startYM earliest).1 (startYM earliest).2
      (le_refl _) hs0b.1 hs0b.2

/-! ### Calendar arithmetic: successor, bounds, injectivity -/

theorem daysInMonth_four (y : Nat) : daysInMonth y 4 = 30 := rfl

theorem fyStartDate_valid (fy : Nat) : ValidDate (fyStartDate fy) := by
  refine ⟨?_, ?_, ?_, ?_⟩
  · show (1 : Nat) ≤ 4
    omega
  · show (4 : Nat) ≤ 12
    omega
  · show (1 : Nat) ≤ 1
    omega
  · show (1 : Nat) ≤ daysInMonth fy 4
    rw [daysInMonth_four]
    omega

theorem fy_span (fy : Nat) :
    dayN (fyEndDate fy) =
      dayN (fyStartDate fy) + 364 + (if isLeap (fy + 1) = true then 1 else 0) := by
  have hb := daysBeforeYear_succ fy
  simp only [fyStartDate, fyEndDate, dayN, daysBeforeMonth, monthOffsets]
  by_cases h1 : isLeap fy = true <;> by_cases h2 : isLeap (fy + 1) = true <;>
    simp [h1, h2] at * <;> omega

theorem dayN_nextDate (d : Date) (hv : ValidDate d) : dayN (nextDate d) = dayN d + 1 := by
  obtain ⟨y, m, day⟩ := d
  obtain ⟨h1, h2, h3, h4⟩ := hv
  simp only at h1 h2 h3 h4
  unfold nextDate
  split
  · simp only [dayN]
    omega
  · split
    · rename_i hge hm
      simp only at hge hm
      simp only [dayN]
      rw [daysBeforeMonth_succ y m h1 h2]
      omega
    · rename_i hge hm
      simp only at hge hm
      have hm12 : m = 12 := by omega
      subst hm12
      have hday : day = 31 := by
        simp only [daysInMonth] at h4 hge
        omega
      subst hday
      simp only [dayN, daysBeforeYear_succ]
      simp only [daysBeforeMonth, monthOffsets]
      rcases h : isLeap y <;> simp [h]

theorem nextDate_valid (d : Date) (hv : ValidDate d) : ValidDate (nextDate d) := by
  obtain ⟨y, m, day⟩ := d
  obtain ⟨h1, h2, h3, h4⟩ := hv
  simp only at h1 h2 h3 h4
  unfold nextDate
  split
  · rename_i hlt
    simp only at hlt
    refine ⟨?_, ?_, ?_, ?_⟩
    · show 1 ≤ m
      omega
    · show m ≤ 12
      omega
    · show 1 ≤ day + 1
      omega
    · show day + 1 ≤ daysInMonth y m
      omega
  · split
    · rename_i hge hm
      simp only at hge hm
      refine ⟨?_, ?_, ?_, ?_⟩
      · show 1 ≤ m + 1
        omega
      · show m + 1 ≤ 12
        omega
      · show (1 : Nat) ≤ 1
        omega
      · show 1 ≤ daysInMonth y (m + 1)
        have := daysInMonth_ge y (m + 1)
        omega
    · refine ⟨?_, ?_, ?_, ?_⟩
      · show (1 : Nat) ≤ 1
        omega
      · show (1 : Nat) ≤ 12
        omega
      · show (1 : Nat) ≤ 1
        omega
      · show 1 ≤ daysInMonth (y + 1) 1
        have := daysInMonth_ge (y + 1) 1
        omega

theorem dayN_lower (d : Date) : daysBeforeYear d.year ≤ dayN d := by
  simp only [dayN]
  omega

theorem dayN_upper (d : Date) (hv : ValidDate d) : dayN d < daysBeforeYear (d.year + 1) := by
  obtain ⟨y, m, day⟩ := d
  obtain ⟨h1, h2, h3, h4⟩ := hv
  simp only at h1 h2 h3 h4
  simp only [dayN, daysBeforeYear_succ]
  have hbound : daysBeforeMonth y m + day - 1 ≤ 364 + (if isLeap y = true then 1 else 0) := by
    interval_cases m <;>
      simp only [daysBeforeMonth, monthOffsets, daysInMonth] at h4 ⊢ <;>
      rcases h : isLeap y <;> simp [h] at h4 ⊢ <;> omega
  omega

theorem daysBeforeYear_le {y y' : Nat} (h : y ≤ y') :
    daysBeforeYear y ≤ daysBeforeYear y' := by
  unfold daysBeforeYear leapsBefore
  omega

theorem daysBeforeMonth_mono (y m : Nat) (h1 : 1 ≤ m) :
    ∀ m', m ≤ m' → m' ≤ 13 → daysBeforeMonth y m ≤ daysBeforeMonth y m' := by
  intro m'
  induction m' with
  | zero => intro hle _; omega
  | succ k ih =>
    intro hle h13
    rcases Nat.lt_or_ge m (k + 1) with hlt | hge
    · have hstep := daysBeforeMonth_succ y k (by omega) (by omega)
      have := ih (by omega) (by omega)
      omega
    · have heq : m = k + 1 := by omega
      rw [heq]

theorem dayN_inj {a b : Date} (ha : ValidDate a) (hb : ValidDate b)
    (h : dayN a = dayN b) : a = b := by
  obtain ⟨y1, m1, d1⟩ := a
  obtain ⟨y2, m2, d2⟩ := b
  have hy : y1 = y2 := by
    by_contra hne
    rcases Nat.lt_or_ge y1 y2 with hlt | hge
    · have hu := dayN_upper ⟨y1, m1, d1⟩ ha
      have hl := dayN_lower (⟨y2, m2, d2⟩ : Date)
      have hm := daysBeforeYear_le (show y1 + 1 ≤ y2 from hlt)
      simp only at hu hl
      omega
    · have hlt : y2 < y1 := by omega
      have hu := dayN_upper ⟨y2, m2, d2⟩ hb
      have hl := dayN_lower (⟨y1, m1, d1⟩ : Date)
      have hm := daysBeforeYear_le (show y2 + 1 ≤ y1 from hlt)
      simp only at hu hl
      omega
  subst hy
  obtain ⟨ha1, ha2, ha3, ha4⟩ := ha
  obtain ⟨hb1, hb2, hb3, hb4⟩ := hb
  simp only at ha1 ha2 ha3 ha4 hb1 hb2 hb3 hb4
  simp only [dayN] at h
  have hm : m1 = m2 := by
    by_contra hne
    rcases Nat.lt_or_ge m1 m2 with hlt | hge
    · have hstep := daysBeforeMonth_succ y1 m1 ha1 ha2
      have hmono := daysBeforeMonth_mono y1 (m1 + 1) (by omega) m2 (by omega) (by omega)
      omega
    · have hlt : m2 < m1 := by omega
      have hstep := daysBeforeMonth_succ y1 m2 hb1 hb2
      have hmono := daysBeforeMonth_mono y1 (m2 + 1) (by omega) m1 (by omega) (by omega)
      omega
  subst hm
  have : d1 = d2 := by omega
  rw [this]

/-! ### The inclusive day loop -/

theorem dateList_length (a : Date) (n : Nat) : (dateList a n).length = n := by
  induction n generalizing a with
  | zero => rfl
  | succ n ih => simp [dateList, ih]

theorem mem_dateList : ∀ (n : Nat) (a : Date), ValidDate a → ∀ d : Date,
    (d ∈ dateList a n ↔ ValidDate d ∧ dayN a ≤ dayN d ∧ dayN d < dayN a + n) := by
  intro n
  induction n with
  | zero =>
    intro a hva d
    simp [dateList]
  | succ n ih =>
    intro a hva d
    have hunf : dateList a (n + 1) = a :: dateList (nextDate a) n := rfl
    rw [hunf, List.mem_cons, ih (nextDate a) (nextDate_valid a hva)]
    have hstep := dayN_nextDate a hva
    constructor
    · rintro (rfl | ⟨hv, hge, hlt⟩)
      · exact ⟨hva, le_refl _, by omega⟩
      · exact ⟨hv, by omega, by omega⟩
    · rintro ⟨hv, hge, hlt⟩
      rcases Nat.eq_or_lt_of_le hge with heq | hgt
      · exact Or.inl (dayN_inj hv hva heq.symm)
      · exact Or.inr ⟨hv, by omega, by omega⟩

theorem dateList_nodup : ∀ (n : Nat) (a : Date), ValidDate a → (dateList a n).Nodup := by
  intro n
  induction n with
  | zero => intro a _; exact List.nodup_nil
  | succ n ih =>
    intro a hva
    have hunf : dateList a (n + 1) = a :: dateList (nextDate a) n := rfl
    rw [hunf, List.nodup_cons]
    refine ⟨?_, ih (nextDate a) (nextDate_valid a hva)⟩
    intro hmem
    have := (mem_dateList n (nextDate a) (nextDate_valid a hva) a).mp hmem
    have hstep := dayN_nextDate a hva
    omega

/-! ### Spending-map key lemmas -/

theorem keysOf_setKey_mem {m : SpendMap} {k : Date} (v : ℚ) (h : k ∈ keysOf m) :
    keysOf (setKey m k v) = keysOf m := by
  induction m with
  | nil => cases h
  | cons kv rest ih =>
    obtain ⟨k', v'⟩ := kv
    unfold setKey
    split
    · simp [keysOf]
    · rename_i hne
      simp only [keysOf, List.map_cons] at h ⊢
      rcases List.mem_cons.mp h with heq | hmem
      · exact absurd heq.symm hne
      · have := ih hmem
        simp only [keysOf] at this
        rw [this]

theorem setKey_fresh {m : SpendMap} {k : Date} (v : ℚ) (h : k ∉ keysOf m) :
    setKey m k v = m ++ [(k, v)] := by
  induction m with
  | nil => rfl
  | cons kv rest ih =>
    obtain ⟨k', v'⟩ := kv
    unfold setKey
    simp only [keysOf, List.map_cons, List.mem_cons] at h
    push_neg at h
    rw [if_neg (fun heq => h.1 heq.symm)]
    have := ih (by
      intro hmem
      exact h.2 (by simpa [keysOf] using hmem))
    rw [this]
    rfl

theorem keysOf_append (m1 m2 : SpendMap) :
    keysOf (m1 ++ m2) = keysOf m1 ++ keysOf m2 := by
  simp [keysOf]

theorem foldl_setKey_zero_fresh : ∀ (ds : List Date) (acc : SpendMap),
    ds.Nodup → (∀ d ∈ ds, d ∉ keysOf acc) →
    ds.foldl (fun m d => setKey m d 0) acc = acc ++ ds.map (fun d => (d, 0)) := by
  intro ds
  induction ds with
  | nil => intro acc _ _; simp
  | cons d ds ih =>
    intro acc hnd hfresh
    rw [List.nodup_cons] at hnd
    simp only [List.foldl_cons]
    rw [setKey_fresh 0 (hfresh d (List.mem_cons_self d ds))]
    rw [ih (acc ++ [(d, 0)]) hnd.2 ?_]
    · simp
    · intro d' hd'
      rw [keysOf_append]
      simp only [List.mem_append]
      rintro (hacc | hsing)
      · exact hfresh d' (List.mem_cons_of_mem d hd') hacc
      · simp only [keysOf, List.map_cons, List.map_nil, List.mem_singleton] at hsing
        exact hnd.1 (hsing ▸ hd')

theorem keysOf_foldl_setKey_mem (f : SpendMap → Date → ℚ) :
    ∀ (ds : List Date) (m : SpendMap), (∀ d ∈ ds, d ∈ keysOf m) →
    keysOf (ds.foldl (fun m2 d => setKey m2 d (f m2 d)) m) = keysOf m := by
  intro ds
  induction ds with
  | nil => intro m _; rfl
  | cons d ds ih =>
    intro m hmem
    simp only [List.foldl_cons]
    have hkeys : keysOf (setKey m d (f m d)) = keysOf m :=
      keysOf_setKey_mem _ (hmem d (List.mem_cons_self d ds))
    rw [ih (setKey m d (f m d)) ?_, hkeys]
    intro d' hd'
    rw [hkeys]
    exact hmem d' (List.mem_cons_of_mem d hd')

/-! ### Month stepping for the proration span -/

theorem dateOfIdx_step (k : Nat) :
    dayN (dateOfIdx (k + 1) 1) =
      dayN (dateOfIdx k 1) + daysInMonth (k / 12) (k % 12 + 1) := by
  rcases Nat.lt_or_ge (k % 12) 11 with h | h
  · have h1 : (k + 1) / 12 = k / 12 := by omega
    have h2 : (k + 1) % 12 = k % 12 + 1 := by omega
    simp only [dateOfIdx, h1, h2, dayN]
    have hs := daysBeforeMonth_succ (k / 12) (k % 12 + 1) (by omega) (by omega)
    omega
  · have h0 : k % 12 = 11 := by omega
    have h1 : (k + 1) / 12 = k / 12 + 1 := by omega
    have h2 : (k + 1) % 12 = 0 := by omega
    simp only [dateOfIdx, h0, h1, h2, dayN]
    have hb := daysBeforeYear_succ (k / 12)
    simp only [daysBeforeMonth, monthOffsets, daysInMonth]
    by_cases hl : isLeap (k / 12) = true <;> simp [hl] at * <;> omega

theorem dayN_dateOfIdx_le {k k' : Nat} (h : k ≤ k') :
    dayN (dateOfIdx k 1) ≤ dayN (dateOfIdx k' 1) := by
  induction k', h using Nat.le_induction with
  | base => exact le_refl _
  | succ k' hk ih =>
    have := dateOfIdx_step k'
    omega

theorem dateOfIdx_mIdx (y m d : Nat) (h1 : 1 ≤ m) (h2 : m ≤ 12) :
    dateOfIdx (mIdx y m) d = ⟨y, m, d⟩ := by
  have ha : (12 * y + (m - 1)) / 12 = y := by omega
  have hb : (12 * y + (m - 1)) % 12 + 1 = m := by omega
  simp only [dateOfIdx, mIdx, ha, hb]

theorem dayN_prevMonthEnd (k : Nat) (hk : 1 ≤ k) :
    dayN (prevMonthEnd (dateOfIdx k 1)) + 1 = dayN (dateOfIdx k 1) := by
  unfold dateOfIdx prevMonthEnd
  by_cases h0 : k % 12 = 0
  · simp only [h0, Nat.zero_add]
    rw [if_pos trivial]
    have hy : 1 ≤ k / 12 := by omega
    have hb := daysBeforeYear_succ (k / 12 - 1)
    have hy1 : k / 12 - 1 + 1 = k / 12 := by omega
    rw [hy1] at hb
    simp only [dayN, daysBeforeMonth, monthOffsets]
    by_cases hl : isLeap (k / 12 - 1) = true <;> simp [hl] at * <;> omega
  · have hcond : ¬((⟨k / 12, k % 12 + 1, 1⟩ : Date).month = 1) := by
      show ¬(k % 12 + 1 = 1)
      omega
    rw [if_neg hcond]
    have hs := daysBeforeMonth_succ (k / 12) (k % 12) (by omega) (by omega)
    have hge := daysInMonth_ge (k / 12) (k % 12)
    simp only [Nat.add_sub_cancel, dayN]
    omega

theorem dayN_monthly_end_ge (ed : Date) (hv : ValidDate ed) (i : Nat) (hi : 1 ≤ i) :
    dayN ed ≤ dayN (prevMonthEnd (plusMonthsFirst ed.year ed.month i)) := by
  obtain ⟨y, m, day⟩ := ed
  obtain ⟨h1, h2, h3, h4⟩ := hv
  simp only at h1 h2 h3 h4
  have hk1 : 1 ≤ mIdx y m + i := by
    unfold mIdx
    omega
  have hpe := dayN_prevMonthEnd (mIdx y m + i) hk1
  have hmono := dayN_dateOfIdx_le (show mIdx y m + 1 ≤ mIdx y m + i by omega)
  have hstep := dateOfIdx_step (mIdx y m)
  have hm12 : mIdx y m % 12 + 1 = m := by
    unfold mIdx
    omega
  have hy12 : mIdx y m / 12 = y := by
    unfold mIdx
    omega
  rw [hm12, hy12, dateOfIdx_mIdx y m 1 h1 h2] at hstep
  have hdayn : dayN ⟨y, m, day⟩ ≤ dayN ⟨y, m, 1⟩ + (daysInMonth y m - 1) := by
    simp only [dayN]
    omega
  show dayN ⟨y, m, day⟩ ≤ dayN (prevMonthEnd (dateOfIdx (mIdx y m + i) 1))
  omega

/-! ### The clipped proration span -/

theorem validDate_monthStart (ed : Date) (hv : ValidDate ed) :
    ValidDate (⟨ed.year, ed.month, 1⟩ : Date) := by
  obtain ⟨h1, h2, _, _⟩ := hv
  refine ⟨h1, h2, ?_, ?_⟩
  · show (1 : Nat) ≤ 1
    omega
  · show 1 ≤ daysInMonth ed.year ed.month
    have := daysInMonth_ge ed.year ed.month
    omega

theorem monthlySpanFacts (ed : Date) (i : Nat) (fyS fyE : Date)
    (hv : ValidDate ed) (hfyS : ValidDate fyS) :
    ValidDate (if dayN ⟨ed.year, ed.month, 1⟩ < dayN fyS then fyS
        else (⟨ed.year, ed.month, 1⟩ : Date))
    ∧ dayN fyS ≤ dayN (if dayN ⟨ed.year, ed.month, 1⟩ < dayN fyS then fyS
        else (⟨ed.year, ed.month, 1⟩ : Date))
    ∧ dayN (if dayN fyE < dayN (prevMonthEnd (plusMonthsFirst ed.year ed.month i)) then fyE
        else prevMonthEnd (plusMonthsFirst ed.year ed.month i)) ≤ dayN fyE := by
  refine ⟨?_, ?_, ?_⟩
  · split
    · exact hfyS
    · exact validDate_monthStart ed hv
  · split
    · exact le_refl _
    · rename_i h
      omega
  · split
    · exact le_refl _
    · rename_i h
      omega

/-- The clipped span of `calculateProratedSpending` starts at a valid
date no earlier than the fiscal-year start and ends no later than the
fiscal-year end (in every `repeat_type` branch). -/
theorem calcPS_span_clip (event : PSEvent) (fyS fyE : Date)
    (hv : ValidDate event.date) (hfyS : ValidDate fyS) :
    ValidDate (calculateProratedSpending event event.date fyS fyE).startDate
    ∧ dayN fyS ≤ dayN (calculateProratedSpending event event.date fyS fyE).startDate
    ∧ dayN (calculateProratedSpending event event.date fyS fyE).endDate ≤ dayN fyE := by
  obtain ⟨hm, hfs, hfe⟩ := monthlySpanFacts event.date event.repeat_interval fyS fyE hv hfyS
  unfold calculateProratedSpending
  dsimp only
  split
  · exact ⟨hm, hfs, hfe⟩
  · split
    · exact ⟨hfyS, le_refl _, le_refl _⟩
    · exact ⟨hm, hfs, hfe⟩

theorem fiscalDates_nodup (now : Date) : (fiscalDates now).Nodup :=
  dateList_nodup _ _ (fyStartDate_valid _)

theorem mem_fiscalDates (now : Date) (d : Date) :
    d ∈ fiscalDates now ↔
      ValidDate d ∧ dayN (fyStartDate (fyStartYear now)) ≤ dayN d ∧
        dayN d ≤ dayN (fyEndDate (fyStartYear now)) := by
  unfold fiscalDates
  rw [mem_dateList _ _ (fyStartDate_valid _)]
  have hspan := fy_span (fyStartYear now)
  constructor
  · rintro ⟨hv, hge, hlt⟩
    refine ⟨hv, hge, ?_⟩
    by_cases h : isLeap (fyStartYear now + 1) = true <;> simp [h] at hspan <;> omega
  · rintro ⟨hv, hge, hle⟩
    refine ⟨hv, hge, ?_⟩
    by_cases h : isLeap (fyStartYear now + 1) = true <;> simp [h] at hspan <;> omega

/-- One event-loop step of `buildDailySpendingMap` never writes outside
the initialized fiscal-year keys. -/
theorem keysOf_applyEventToMap (now : Date) (m : SpendMap) (e : PSEvent)
    (hv : ValidDate e.date) (hk : keysOf m = fiscalDates now) :
    keysOf (applyEventToMap now m e) = fiscalDates now := by
  unfold applyEventToMap
  dsimp only
  split
  · exact hk
  · split
    · exact hk
    · split
      · exact hk
      · rename_i htrans hsent hrange
        push_neg at hrange
        split
        · rw [keysOf_setKey_mem _ ?_]
          · exact hk
          · rw [hk, mem_fiscalDates]
            exact ⟨hv, by omega, by omega⟩
        · rw [keysOf_foldl_setKey_mem _ _ _ ?_]
          · exact hk
          · intro d hd
            obtain ⟨hsv, hsge, hele⟩ := calcPS_span_clip e (fyStartDate (fyStartYear now))
              (fyEndDate (fyStartYear now)) hv (fyStartDate_valid _)
            have hmem := (mem_dateList _ _ hsv d).mp hd
            obtain ⟨hdv, hdge, hdlt⟩ := hmem
            rw [hk, mem_fiscalDates]
            exact ⟨hdv, by omega, by omega⟩

/-! ## Claims -/

/-- C10: for every event and the same current instant (hence the same
fiscal-year bounds), the proration implementation used by the daily map
builder (`calculateProratedSpending`) and the one used by the billing
aggregator (`calculateEventProratedPeriod`) return identical
`startDate`, `endDate` and `dailyAmount`. -/
theorem c10_proration_engines_agree (now : Date) (event : PSEvent) (eventDate : Date) :
    calculateProratedSpending event eventDate
        (fyStartDate (fyStartYear now)) (fyEndDate (fyStartYear now)) =
      calculateEventProratedPeriod now event eventDate := rfl

/-- C7: `applyHeadroomToRepayments` multiplies each period's
`totalSpending` by `1 + percentage / 100`; 20 percent headroom turns a
1000 total into 1200, and 0 percent headroom is the identity. -/
theorem c7_headroom_scales_totals :
    (∀ (periods : List CreditCardBillingPeriod) (pct : ℚ),
      (applyHeadroomToRepayments periods pct).map CreditCardBillingPeriod.totalSpending =
        periods.map (fun p => p.totalSpending * (1 + pct / 100)))
    ∧ (applyHeadroomToRepayments
        [⟨fmtYM 2025 5, ⟨2025, 4, 3⟩, ⟨2025, 5, 2⟩, 1000, []⟩] 20).map
        CreditCardBillingPeriod.totalSpending = [1200]
    ∧ (∀ periods : List CreditCardBillingPeriod,
        applyHeadroomToRepayments periods 0 = periods) := by
  refine ⟨?_, ?_, ?_⟩
  · intro periods pct
    simp [applyHeadroomToRepayments]
  · norm_num [applyHeadroomToRepayments]
  · intro periods
    have h : ∀ p : CreditCardBillingPeriod,
        (⟨p.repaymentMonth, p.periodStart, p.periodEnd, p.totalSpending * (1 + (0 : ℚ) / 100),
          p.categoryBreakdown⟩ : CreditCardBillingPeriod) = p := by
      intro p
      have hq : p.totalSpending * (1 + (0 : ℚ) / 100) = p.totalSpending := by norm_num
      rw [hq]
    unfold applyHeadroomToRepayments
    induction periods with
    | nil => rfl
    | cons p ps ih =>
      simp only [List.map_cons, h p]
      rw [ih]

/-- C8: an event whose `repeat_type` is neither `monthly` nor `yearly`
is prorated exactly as if its `repeat_type` were `monthly` (same
`repeat_interval`), in both copies of the proration engine; no error is
raised (the functions are total), only a console warning differs. -/
theorem c8_unknown_repeat_type_is_monthly (event : PSEvent)
    (eventDate fyStart fyEnd now : Date)
    (h1 : event.repeat_type ≠ "monthly") (h2 : event.repeat_type ≠ "yearly") :
    calculateProratedSpending event eventDate fyStart fyEnd =
      calculateProratedSpending (withRepeatType event "monthly") eventDate fyStart fyEnd
    ∧ calculateEventProratedPeriod now event eventDate =
      calculateEventProratedPeriod now (withRepeatType event "monthly") eventDate := by
  constructor
  · unfold calculateProratedSpending withRepeatType
    simp only [if_neg h1, if_neg h2]
    simp
  · unfold calculateEventProratedPeriod withRepeatType
    simp only [if_neg h1, if_neg h2]
    simp

/-- Witness for C8 at a concrete `weekly` event. -/
theorem c8_unknown_repeat_type_is_monthly_witness :
    (⟨-120, ⟨2025, 6, 10⟩, ⟨"Gym", false⟩, false, "weekly", 1⟩ : PSEvent).repeat_type ≠ "monthly"
    ∧ (⟨-120, ⟨2025, 6, 10⟩, ⟨"Gym", false⟩, false, "weekly", 1⟩ : PSEvent).repeat_type ≠ "yearly"
    ∧ calculateProratedSpending ⟨-120, ⟨2025, 6, 10⟩, ⟨"Gym", false⟩, false, "weekly", 1⟩
        ⟨2025, 6, 10⟩ (fyStartDate 2025) (fyEndDate 2025) =
      calculateProratedSpending
        (withRepeatType ⟨-120, ⟨2025, 6, 10⟩, ⟨"Gym", false⟩, false, "weekly", 1⟩ "monthly")
        ⟨2025, 6, 10⟩ (fyStartDate 2025) (fyEndDate 2025) :=
  ⟨by decide, by decide,
    (c8_unknown_repeat_type_is_monthly _ ⟨2025, 6, 10⟩ (fyStartDate 2025) (fyEndDate 2025)
      ⟨2025, 6, 15⟩ (by decide) (by decide)).1⟩

/-- The concrete event for C2: a non-transfer event in the sentinel
category as spelled with the real card emoji (U+1F4B3). -/
def eventC2 : PSEvent :=
  ⟨-50, ⟨2025, 6, 10⟩, ⟨sentinelBreakdown, false⟩, false, "monthly", 1⟩

/-- C2: the two paths do NOT apply the same sentinel-category
exclusion: the daily map builder compares against a mojibake spelling
of the category title, the category breakdown aggregator against the
emoji spelling, so a non-transfer event titled with the emoji spelling
is excluded by `calculateCategoryBreakdown` but not by
`buildDailySpendingMap`'s skip test. -/
theorem c2_sentinel_exclusions_differ :
    dailySentinelSkip eventC2 = false
    ∧ breakdownSentinelSkip eventC2 = true
    ∧ calculateCategoryBreakdown ⟨2025, 6, 15⟩ [eventC2] ⟨2025, 6, 3⟩ ⟨2025, 7, 2⟩ = []
    ∧ sentinelDaily ≠ sentinelBreakdown := by
  refine ⟨by decide, by decide, by decide, by decide⟩

/-- The scenario event of C3: -300, monthly, interval 1, anchored
2025-04-15, not a bill. -/
def eventC3 : PSEvent :=
  ⟨-300, ⟨2025, 4, 15⟩, ⟨"Groceries", false⟩, false, "monthly", 1⟩

/-- C3 (failing-input evaluation): on the spec scenario the proration
engine spans April 2025 but divides by `30 + 86399999/86400000` (the
luxon end-of-day fractional diff plus one), so the daily amount is
about 9.677, not `300 / 30 = 10`, and `dailyAmount * daysInMonth`
misses `abs(amount)` by more than 9, far beyond floating tolerance. -/
theorem c3_monthly_proration_misses_amount :
    calculateProratedSpending eventC3 ⟨2025, 4, 15⟩ (fyStartDate 2025) (fyEndDate 2025) =
      ⟨⟨2025, 4, 1⟩, ⟨2025, 4, 30⟩, 300 / (29 + lastDayFrac + 1)⟩
    ∧ (calculateProratedSpending eventC3 ⟨2025, 4, 15⟩ (fyStartDate 2025)
        (fyEndDate 2025)).dailyAmount ≠ 10
    ∧ (calculateProratedSpending eventC3 ⟨2025, 4, 15⟩ (fyStartDate 2025)
        (fyEndDate 2025)).dailyAmount * (daysInMonth 2025 4 : ℚ) ≠ 300
    ∧ 300 - (calculateProratedSpending eventC3 ⟨2025, 4, 15⟩ (fyStartDate 2025)
        (fyEndDate 2025)).dailyAmount * (daysInMonth 2025 4 : ℚ) > 9 := by
  have h0 : calculateProratedSpending eventC3 ⟨2025, 4, 15⟩ (fyStartDate 2025) (fyEndDate 2025) =
      ⟨⟨2025, 4, 1⟩, ⟨2025, 4, 30⟩,
        absQ eventC3.amount / (diffQ ⟨2025, 4, 1⟩ ⟨2025, 4, 30⟩ + 1)⟩ := rfl
  have hv : absQ eventC3.amount / (diffQ ⟨2025, 4, 1⟩ ⟨2025, 4, 30⟩ + 1) =
      300 / (29 + lastDayFrac + 1) := by
    norm_num [eventC3, absQ, diffQ, dayN, daysBeforeYear, daysBeforeMonth, monthOffsets,
      leapsBefore, isLeap]
  have h : calculateProratedSpending eventC3 ⟨2025, 4, 15⟩ (fyStartDate 2025) (fyEndDate 2025) =
      ⟨⟨2025, 4, 1⟩, ⟨2025, 4, 30⟩, 300 / (29 + lastDayFrac + 1)⟩ := by
    rw [h0, hv]
  refine ⟨h, ?_, ?_, ?_⟩ <;> rw [h] <;> norm_num [lastDayFrac, daysInMonth, isLeap]

/-- The concrete event for C5: -365, yearly (interval 3, which must be
ignored), anchored mid-year. -/
def eventC5 : PSEvent :=
  ⟨-365, ⟨2025, 7, 1⟩, ⟨"Insurance", false⟩, false, "yearly", 3⟩

/-- C5 (failing-input evaluation): a yearly event is spread over the
whole fiscal year regardless of anchor date and interval (that part of
the claim holds), but the engine divides by
`365 + 86399999/86400000` instead of the 365 days of fiscal year
2025/26, so `dailyAmount * daysInFiscalYear` falls short of
`abs(amount)` by about one daily amount. -/
theorem c5_yearly_proration_misses_amount :
    calculateEventProratedPeriod ⟨2025, 4, 10⟩ eventC5 ⟨2025, 7, 1⟩ =
      ⟨fyStartDate 2025, fyEndDate 2025, 365 / (364 + lastDayFrac + 1)⟩
    ∧ dayN (fyEndDate 2025) + 1 - dayN (fyStartDate 2025) = 365
    ∧ (calculateEventProratedPeriod ⟨2025, 4, 10⟩ eventC5 ⟨2025, 7, 1⟩).dailyAmount * 365 ≠ 365
    ∧ 365 - (calculateEventProratedPeriod ⟨2025, 4, 10⟩ eventC5
        ⟨2025, 7, 1⟩).dailyAmount * 365 > 99 / 100 := by
  have h0 : calculateEventProratedPeriod ⟨2025, 4, 10⟩ eventC5 ⟨2025, 7, 1⟩ =
      ⟨fyStartDate 2025, fyEndDate 2025,
        absQ eventC5.amount / (diffQ (fyStartDate 2025) (fyEndDate 2025) + 1)⟩ := rfl
  have hv : absQ eventC5.amount / (diffQ (fyStartDate 2025) (fyEndDate 2025) + 1) =
      365 / (364 + lastDayFrac + 1) := by
    norm_num [eventC5, absQ, diffQ, dayN, daysBeforeYear, daysBeforeMonth, monthOffsets,
      leapsBefore, isLeap, fyStartDate, fyEndDate]
  have h : calculateEventProratedPeriod ⟨2025, 4, 10⟩ eventC5 ⟨2025, 7, 1⟩ =
      ⟨fyStartDate 2025, fyEndDate 2025, 365 / (364 + lastDayFrac + 1)⟩ := by
    rw [h0, hv]
  refine ⟨h, by decide, ?_, ?_⟩ <;> rw [h] <;> norm_num [lastDayFrac]

/-- C1 (as claimed, counterexample): on the map covering 2025-04-01 and
2025-05-03 with now = 2025-04-10, the generator emits the April cycle
(periodEnd 2025-05-02) with repaymentMonth "2025-05" — the month OF
`periodEnd`, not the claimed month after it ("2025-06"). -/
theorem c1_repayment_month_counterexample :
    ¬ (∀ p ∈ calculateCreditCardRepayments ⟨2025, 4, 10⟩
          [(⟨2025, 4, 1⟩, 0), (⟨2025, 5, 3⟩, 0)] [],
        p.repaymentMonth =
          fmtYM (if p.periodEnd.month = 12 then p.periodEnd.year + 1 else p.periodEnd.year)
            (if p.periodEnd.month = 12 then 1 else p.periodEnd.month + 1)) := by
  intro h
  have hev : calculateCreditCardRepayments ⟨2025, 4, 10⟩
      [(⟨2025, 4, 1⟩, 0), (⟨2025, 5, 3⟩, 0)] [] =
      [⟨fmtYM 2025 5, ⟨2025, 4, 3⟩, ⟨2025, 5, 2⟩,
        getSpendingForDateRange [(⟨2025, 4, 1⟩, 0), (⟨2025, 5, 3⟩, 0)] ⟨2025, 4, 3⟩ ⟨2025, 5, 2⟩,
        calculateCategoryBreakdown ⟨2025, 4, 10⟩ [] ⟨2025, 4, 3⟩ ⟨2025, 5, 2⟩⟩] := by
    simp [calculateCreditCardRepayments, keysOf, sortAsc, insertAsc, dayN,
      daysBeforeYear, daysBeforeMonth, monthOffsets, leapsBefore, isLeap, startYM]
    rw [billingLoop]
    norm_num [nextYM, peOf, dayN, daysBeforeYear, daysBeforeMonth, monthOffsets,
      leapsBefore, isLeap]
    rw [billingLoop]
    norm_num [nextYM, peOf, dayN, daysBeforeYear, daysBeforeMonth, monthOffsets,
      leapsBefore, isLeap]
  have hmem := h _ (by rw [hev]; exact List.mem_cons_self _ _)
  simp only at hmem
  exact absurd hmem (by decide)

/-- C1 (amended): `repaymentMonth` is the calendar month containing
`periodEnd` itself (equivalently, the month after `periodStart`'s
month), with December-to-January rollover incrementing the year. -/
theorem c1_repayment_month_is_periodEnd_month (now : Date) (m : SpendMap)
    (evs : List PSEvent) (hk : ∀ k ∈ keysOf m, ValidDate k) :
    ∀ p ∈ calculateCreditCardRepayments now m evs,
      p.repaymentMonth = fmtYM p.periodEnd.year p.periodEnd.month
      ∧ (p.periodStart.month = 12 →
          p.periodEnd.year = p.periodStart.year + 1 ∧ p.periodEnd.month = 1)
      ∧ (p.periodStart.month ≠ 12 →
          p.periodEnd.year = p.periodStart.year ∧
            p.periodEnd.month = p.periodStart.month + 1) := by
  intro p hp
  obtain ⟨⟨y, mo, hmo1, hmo2, hps, hpe, hrm⟩, _⟩ := calcCCR_shape now m evs hk p hp
  refine ⟨?_, ?_, ?_⟩
  · rw [hrm, hpe]
    rfl
  · intro h12
    rw [hps] at h12
    replace h12 : mo = 12 := h12
    subst h12
    rw [hpe, hps]
    unfold peOf nextYM
    rw [if_pos (by omega)]
    exact ⟨rfl, rfl⟩
  · intro h12
    rw [hps] at h12
    replace h12 : mo ≠ 12 := h12
    rw [hpe, hps]
    unfold peOf nextYM
    rw [if_neg (by omega)]
    exact ⟨rfl, rfl⟩

/-- Witness for the amended C1 on a concrete two-key map. -/
theorem c1_repayment_month_is_periodEnd_month_witness :
    (∀ k ∈ keysOf ([(⟨2025, 4, 1⟩, 0), (⟨2025, 5, 3⟩, 0)] : SpendMap), ValidDate k)
    ∧ ∀ p ∈ calculateCreditCardRepayments ⟨2025, 4, 10⟩
          [(⟨2025, 4, 1⟩, 0), (⟨2025, 5, 3⟩, 0)] [],
        p.repaymentMonth = fmtYM p.periodEnd.year p.periodEnd.month
        ∧ (p.periodStart.month = 12 →
            p.periodEnd.year = p.periodStart.year + 1 ∧ p.periodEnd.month = 1)
        ∧ (p.periodStart.month ≠ 12 →
            p.periodEnd.year = p.periodStart.year ∧
              p.periodEnd.month = p.periodStart.month + 1) :=
  ⟨by decide,
    c1_repayment_month_is_periodEnd_month ⟨2025, 4, 10⟩
      [(⟨2025, 4, 1⟩, 0), (⟨2025, 5, 3⟩, 0)] [] (by decide)⟩

/-- C6: the generator emits no period whose `periodEnd` lies after the
latest date present in the map, no two emitted periods cover a common
calendar day, and an empty map yields the empty sequence. -/
theorem c6_periods_within_data_and_disjoint (now : Date) (m : SpendMap)
    (evs : List PSEvent) (hk : ∀ k ∈ keysOf m, ValidDate k) :
    (keysOf m = [] → calculateCreditCardRepayments now m evs = [])
    ∧ (∀ p ∈ calculateCreditCardRepayments now m evs,
        ∃ L, L ∈ keysOf m ∧ (∀ k ∈ keysOf m, dayN k ≤ dayN L) ∧
          dayN p.periodEnd ≤ dayN L)
    ∧ List.Pairwise (fun p q => ∀ d : Date,
        ¬((dayN p.periodStart ≤ dayN d ∧ dayN d ≤ dayN p.periodEnd) ∧
          (dayN q.periodStart ≤ dayN d ∧ dayN d ≤ dayN q.periodEnd)))
      (calculateCreditCardRepayments now m evs) := by
  refine ⟨?_, ?_, ?_⟩
  · intro hkeys
    unfold calculateCreditCardRepayments
    have hempty : sortAsc (keysOf m) = [] := by rw [hkeys]; rfl
    simp only [hempty]
  · intro p hp
    have hsh := calcCCR_shape now m evs hk p hp
    cases hs : sortAsc (keysOf m) with
    | nil =>
      exfalso
      unfold calculateCreditCardRepayments at hp
      simp only [hs] at hp
      exact absurd hp (List.not_mem_nil p)
    | cons e rest =>
      refine ⟨(e :: rest).getLast (List.cons_ne_nil e rest), ?_, ?_, ?_⟩
      · refine mem_sortAsc.mp ?_
        rw [hs]
        exact List.getLast_mem _
      · intro k hkm
        have hksort : k ∈ sortAsc (keysOf m) := mem_sortAsc.mpr hkm
        have hsorted := sortedA_sortAsc (keysOf m)
        rw [hs] at hksort hsorted
        exact sortedA_le_getLast hsorted hksort (List.getLast?_eq_getLast _ _)
      · have hgl : (sortAsc (keysOf m)).getLast? =
            some ((e :: rest).getLast (List.cons_ne_nil e rest)) := by
          rw [hs]
          exact List.getLast?_eq_getLast _ _
        exact le_of_lt (hsh.2 _ hgl)
  · have hpw := calcCCR_pairwise now m evs hk
    refine hpw.imp ?_
    intro p q hlt d
    rintro ⟨⟨h1, h2⟩, ⟨h3, h4⟩⟩
    omega

/-- C4: for every input event list (with well-formed event dates),
`buildDailySpendingMap` returns a map whose key list is exactly the
days of the current fiscal year (365 or 366 of them), and with zero
events every value is 0. -/
theorem c4_map_keys_cover_fiscal_year (now : Date) (events : List PSEvent)
    (hval : ∀ e ∈ events, ValidDate e.date) :
    keysOf (buildDailySpendingMap now events) = fiscalDates now
    ∧ (fiscalDates now).length =
        365 + (if isLeap (fyStartYear now + 1) = true then 1 else 0)
    ∧ (∀ kv ∈ buildDailySpendingMap now [], kv.2 = 0) := by
  have hinit : (fiscalDates now).foldl (fun m d => setKey m d 0) [] =
      (fiscalDates now).map (fun d => (d, 0)) := by
    have := foldl_setKey_zero_fresh (fiscalDates now) [] (fiscalDates_nodup now)
      (by intro d _ h; simp [keysOf] at h)
    simpa using this
  have hinitkeys : keysOf ((fiscalDates now).map (fun d => (d, 0))) = fiscalDates now := by
    simp only [keysOf, List.map_map]
    have hcomp : (Prod.fst ∘ fun d : Date => (d, (0 : ℚ))) = id := rfl
    rw [hcomp, List.map_id]
  refine ⟨?_, ?_, ?_⟩
  · unfold buildDailySpendingMap
    dsimp only
    rw [hinit]
    have hgen : ∀ (evs : List PSEvent) (m : SpendMap), (∀ e ∈ evs, ValidDate e.date) →
        keysOf m = fiscalDates now →
        keysOf (evs.foldl (applyEventToMap now) m) = fiscalDates now := by
      intro evs
      induction evs with
      | nil => intro m _ hkm; exact hkm
      | cons e evs ih =>
        intro m hv hkm
        simp only [List.foldl_cons]
        exact ih _ (fun e' he' => hv e' (List.mem_cons_of_mem e he'))
          (keysOf_applyEventToMap now m e (hv e (List.mem_cons_self e evs)) hkm)
    exact hgen events _ hval hinitkeys
  · unfold fiscalDates
    rw [dateList_length]
    have hspan := fy_span (fyStartYear now)
    by_cases h : isLeap (fyStartYear now + 1) = true <;> simp [h] at hspan ⊢ <;> omega
  · intro kv hkv
    unfold buildDailySpendingMap at hkv
    dsimp only at hkv
    simp only [List.foldl_nil] at hkv
    rw [hinit] at hkv
    simp only [List.mem_map] at hkv
    obtain ⟨d, _, heq⟩ := hkv
    rw [← heq]

/-- Witness for C4 at the empty event list. -/
theorem c4_map_keys_cover_fiscal_year_witness :
    (∀ e ∈ ([] : List PSEvent), ValidDate e.date)
    ∧ keysOf (buildDailySpendingMap ⟨2025, 4, 10⟩ []) = fiscalDates ⟨2025, 4, 10⟩
    ∧ (fiscalDates ⟨2025, 4, 10⟩).length =
        365 + (if isLeap (fyStartYear ⟨2025, 4, 10⟩ + 1) = true then 1 else 0) :=
  ⟨fun e he => absurd he (List.not_mem_nil e),
    (c4_map_keys_cover_fiscal_year ⟨2025, 4, 10⟩ []
      (fun e he => absurd he (List.not_mem_nil e))).1,
    (c4_map_keys_cover_fiscal_year ⟨2025, 4, 10⟩ []
      (fun e he => absurd he (List.not_mem_nil e))).2.1⟩

/-- Common arithmetic for C9: an in-order luxon span gives a total-day
count of at least one, so the division reconstructs the amount. -/
theorem spanTotalDaysConcl (a : ℚ) (s e : Date) (hse : dayN s ≤ dayN e) :
    1 ≤ diffQ s e + 1 ∧ a / (diffQ s e + 1) * (diffQ s e + 1) = a := by
  have hdiff : diffQ s e = ((dayN e - dayN s : Nat) : ℚ) + lastDayFrac := by
    unfold diffQ
    rw [if_pos hse]
  have hc : (0 : ℚ) ≤ ((dayN e - dayN s : Nat) : ℚ) := Nat.cast_nonneg _
  have hfrac : (0 : ℚ) < lastDayFrac := by norm_num [lastDayFrac]
  have hpos : (0 : ℚ) < diffQ s e + 1 := by rw [hdiff]; linarith
  refine ⟨by rw [hdiff]; linarith, ?_⟩
  exact div_mul_cancel₀ a (ne_of_gt hpos)

theorem monthlySpanOrder (ed : Date) (i : Nat) (fyS fyE : Date) (hv : ValidDate ed)
    (hi : 1 ≤ i) (h1 : dayN fyS ≤ dayN ed) (h2 : dayN ed ≤ dayN fyE) :
    dayN (if dayN ⟨ed.year, ed.month, 1⟩ < dayN fyS then fyS
        else (⟨ed.year, ed.month, 1⟩ : Date)) ≤ dayN ed
    ∧ dayN ed ≤ dayN (if dayN fyE < dayN (prevMonthEnd
          (plusMonthsFirst ed.year ed.month i)) then fyE
        else prevMonthEnd (plusMonthsFirst ed.year ed.month i)) := by
  have hms : dayN (⟨ed.year, ed.month, 1⟩ : Date) ≤ dayN ed := by
    obtain ⟨y, m, day⟩ := ed
    obtain ⟨_, _, h3, _⟩ := hv
    simp only at h3
    simp only [dayN]
    omega
  have hme := dayN_monthly_end_ge ed hv i hi
  constructor
  · split <;> omega
  · split <;> omega

/-- C9: for every event with `repeat_interval >= 1` whose date lies
within the fiscal year, the clipped span retains at least one day (the
code's `totalDays` is at least 1), so the division defining
`dailyAmount` is by a nonzero quantity and multiplies back to
`abs(amount)`. -/
theorem c9_prorated_span_at_least_one_day (event : PSEvent) (fy : Nat)
    (hv : ValidDate event.date) (hi : 1 ≤ event.repeat_interval)
    (h1 : dayN (fyStartDate fy) ≤ dayN event.date)
    (h2 : dayN event.date ≤ dayN (fyEndDate fy)) :
    1 ≤ diffQ
        (calculateProratedSpending event event.date (fyStartDate fy) (fyEndDate fy)).startDate
        (calculateProratedSpending event event.date (fyStartDate fy) (fyEndDate fy)).endDate + 1
    ∧ (calculateProratedSpending event event.date (fyStartDate fy) (fyEndDate fy)).dailyAmount *
        (diffQ
          (calculateProratedSpending event event.date (fyStartDate fy) (fyEndDate fy)).startDate
          (calculateProratedSpending event event.date (fyStartDate fy)
            (fyEndDate fy)).endDate + 1) = absQ event.amount := by
  obtain ⟨hso, heo⟩ := monthlySpanOrder event.date event.repeat_interval
    (fyStartDate fy) (fyEndDate fy) hv hi h1 h2
  unfold calculateProratedSpending
  dsimp only
  split
  · dsimp only
    exact spanTotalDaysConcl (absQ event.amount) _ _ (by omega)
  · split
    · dsimp only
      exact spanTotalDaysConcl (absQ event.amount) _ _ (by omega)
    · dsimp only
      exact spanTotalDaysConcl (absQ event.amount) _ _ (by omega)

/-- Witness for C9 at the April scenario event. -/
theorem c9_prorated_span_at_least_one_day_witness :
    ValidDate (⟨-300, ⟨2025, 4, 15⟩, ⟨"Groceries", false⟩, false, "monthly", 1⟩ : PSEvent).date
    ∧ 1 ≤ (⟨-300, ⟨2025, 4, 15⟩, ⟨"Groceries", false⟩, false, "monthly", 1⟩ : PSEvent).repeat_interval
    ∧ dayN (fyStartDate 2025) ≤
        dayN (⟨-300, ⟨2025, 4, 15⟩, ⟨"Groceries", false⟩, false, "monthly", 1⟩ : PSEvent).date
    ∧ dayN (⟨-300, ⟨2025, 4, 15⟩, ⟨"Groceries", false⟩, false, "monthly", 1⟩ : PSEvent).date ≤
        dayN (fyEndDate 2025)
    ∧ 1 ≤ diffQ
        (calculateProratedSpending ⟨-300, ⟨2025, 4, 15⟩, ⟨"Groceries", false⟩, false, "monthly", 1⟩
          (⟨-300, ⟨2025, 4, 15⟩, ⟨"Groceries", false⟩, false, "monthly", 1⟩ : PSEvent).date
          (fyStartDate 2025) (fyEndDate 2025)).startDate
        (calculateProratedSpending ⟨-300, ⟨2025, 4, 15⟩, ⟨"Groceries", false⟩, false, "monthly", 1⟩
          (⟨-300, ⟨2025, 4, 15⟩, ⟨"Groceries", false⟩, false, "monthly", 1⟩ : PSEvent).date
          (fyStartDate 2025) (fyEndDate 2025)).endDate + 1 :=
  ⟨by decide, by decide, by decide, by decide,
    (c9_prorated_span_at_least_one_day
      ⟨-300, ⟨2025, 4, 15⟩, ⟨"Groceries", false⟩, false, "monthly", 1⟩ 2025
      (by decide) (by decide) (by decide) (by decide)).1⟩

/-- Witness for C6 on a concrete two-key map. -/
theorem c6_periods_within_data_and_disjoint_witness :
    (∀ k ∈ keysOf ([(⟨2025, 4, 1⟩, 0), (⟨2025, 6, 20⟩, 0)] : SpendMap), ValidDate k)
    ∧ ((keysOf ([(⟨2025, 4, 1⟩, 0), (⟨2025, 6, 20⟩, 0)] : SpendMap) = [] →
        calculateCreditCardRepayments ⟨2025, 4, 10⟩
          [(⟨2025, 4, 1⟩, 0), (⟨2025, 6, 20⟩, 0)] [] = [])
      ∧ (∀ p ∈ calculateCreditCardRepayments ⟨2025, 4, 10⟩
            [(⟨2025, 4, 1⟩, 0), (⟨2025, 6, 20⟩, 0)] [],
          ∃ L, L ∈ keysOf ([(⟨2025, 4, 1⟩, 0), (⟨2025, 6, 20⟩, 0)] : SpendMap) ∧
            (∀ k ∈ keysOf ([(⟨2025, 4, 1⟩, 0), (⟨2025, 6, 20⟩, 0)] : SpendMap),
              dayN k ≤ dayN L) ∧ dayN p.periodEnd ≤ dayN L)
      ∧ List.Pairwise (fun p q => ∀ d : Date,
          ¬((dayN p.periodStart ≤ dayN d ∧ dayN d ≤ dayN p.periodEnd) ∧
            (dayN q.periodStart ≤ dayN d ∧ dayN d ≤ dayN q.periodEnd)))
        (calculateCreditCardRepayments ⟨2025, 4, 10⟩
          [(⟨2025, 4, 1⟩, 0), (⟨2025, 6, 20⟩, 0)] [])) :=
  ⟨by decide,
    c6_periods_within_data_and_disjoint ⟨2025, 4, 10⟩
      [(⟨2025, 4, 1⟩, 0), (⟨2025, 6, 20⟩, 0)] [] (by decide)⟩

end PSTools
